import Mathlib

/-!
# Bucketeer chunked-upload core: a shallow embedding

This file embeds the core of the bucketeer chunked upload/download
transfer protocol in Lean 4 and proves the specification claims about it:

* the client-side chunk partition loop (`internal/upload/client.go`,
  `Client.Upload`);
* the client-side per-chunk retry policy (`Client.uploadChunk`);
* the upload session server: `New`, `Complete` (the queued completion
  job with its guaranteed-cleanup metadata write), `PollForCompletion`
  (`internal/upload/server.go`);
* the checksum verification helpers (`internal/upload/checksum.go`);
* the content-range header parser (`internal/util/contentrange`) and the
  header string the client emits;
* the download handler and the tar-to-zip directory archiver
  (`internal/download`);
* the byte-range lock used by the chunk server.

Go machine integers (`int64`) are modelled with `Nat`/`Int`; all the
quantities involved (sizes, offsets, status codes) are non-negative and
far from 2^63 in every claim, except where an explicit bound hypothesis
is stated.  External library collaborators (the xxhash-64 digest, UUID
validation and generation, `filepath.Join`) are modelled as parameters
gathered in an `Externals` structure: no claim depends on their
internals, only on how the repository's own code uses their results.
-/

namespace Bucketeer

/-! ## Client chunk partitioning (`internal/upload/client.go`)

`Client.Upload` enqueues one work item per chunk:

```go
for i := int64(0); i < size; i += c.opts.ChunkSizeBytes {
    start := i
    end := start + c.opts.ChunkSizeBytes - 1
    if end >= size {
        end = size - 1
    }
    work.Add(&chunk{start: start, end: end})
}
```

`chunkLoop size csize i` is that loop from loop variable `i` on; the
`0 < csize` side of the guard is only there to make the recursion
terminate in Lean (with `csize = 0` the Go loop would not terminate, and
every claim assumes a positive chunk size). -/

/-- One iteration layer of the chunk partition loop of `Client.Upload`. -/
def chunkLoop (size csize i : Nat) : List (Nat × Nat) :=
  if _h : i < size ∧ 0 < csize then
    (i, if size ≤ i + csize - 1 then size - 1 else i + csize - 1) ::
      chunkLoop size csize (i + csize)
  else
    []
termination_by size - i
decreasing_by
  simp_wf
  omega

/-- The list of `(start, end)` chunk ranges `Client.Upload` uploads for a
source of `size` bytes with chunk size `csize`. -/
def chunkRanges (size csize : Nat) : List (Nat × Nat) :=
  chunkLoop size csize 0

/-- Closed form of the chunk partition loop. -/
theorem chunkLoop_eq (size csize i : Nat) (hc : 0 < csize) :
    chunkLoop size csize i =
      (List.range ((size - i + csize - 1) / csize)).map
        (fun k => (i + k * csize, min (i + (k + 1) * csize) size - 1)) := by
  by_cases h : i < size
  · rw [chunkLoop, dif_pos (show i < size ∧ 0 < csize from ⟨h, hc⟩)]
    have hn : (size - i + csize - 1) / csize = (size - i - 1) / csize + 1 := by
      have e3 : size - i + csize - 1 = (size - i - 1) + csize := by omega
      rw [e3, Nat.add_div_right _ hc]
    have htail : (size - (i + csize) + csize - 1) / csize = (size - i - 1) / csize := by
      by_cases hlt : i + csize < size
      · have e1 : size - (i + csize) + csize - 1 = (size - csize - i - 1) + csize := by
          omega
        have e2 : size - i - 1 = (size - csize - i - 1) + csize := by omega
        rw [e1, e2, Nat.add_div_right _ hc]
      · have e1 : size - (i + csize) + csize - 1 = csize - 1 := by omega
        have e2 : (size - i - 1) / csize = 0 := Nat.div_eq_of_lt (by omega)
        rw [e1, e2]
        exact Nat.div_eq_of_lt (by omega)
    rw [chunkLoop_eq size csize (i + csize) hc, htail, hn,
      List.range_succ_eq_map, List.map_cons, List.map_map]
    congr 1
    · simp only [Nat.zero_add, Nat.one_mul, Nat.zero_mul, Nat.add_zero]
      congr 1
      by_cases hle : size ≤ i + csize - 1
      · simp only [if_pos hle]
        omega
      · simp only [if_neg hle]
        omega
    · apply List.map_congr_left
      intro k _
      simp only [Function.comp_apply, Nat.succ_eq_add_one]
      have e1 : i + csize + k * csize = i + (k + 1) * csize := by ring
      have e2 : i + csize + (k + 1) * csize = i + (k + 1 + 1) * csize := by ring
      rw [e1, e2]
  · rw [chunkLoop, dif_neg (by omega : ¬(i < size ∧ 0 < csize))]
    have h0 : size - i + csize - 1 = csize - 1 := by omega
    rw [h0, Nat.div_eq_of_lt (by omega)]
    simp
termination_by size - i
decreasing_by
  simp_wf
  omega

/-- Closed form for the whole partition. -/
theorem chunkRanges_eq (size csize : Nat) (hc : 0 < csize) :
    chunkRanges size csize =
      (List.range ((size + csize - 1) / csize)).map
        (fun k => (k * csize, min ((k + 1) * csize) size - 1)) := by
  rw [chunkRanges, chunkLoop_eq size csize 0 hc]
  simp

theorem chunkRanges_length (size csize : Nat) (hc : 0 < csize) :
    (chunkRanges size csize).length = (size + csize - 1) / csize := by
  rw [chunkRanges_eq size csize hc]
  simp

theorem chunkRanges_get (size csize : Nat) (hc : 0 < csize)
    (k : Nat) (hk : k < (chunkRanges size csize).length) :
    (chunkRanges size csize).get ⟨k, hk⟩ =
      (k * csize, min ((k + 1) * csize) size - 1) := by
  have h := chunkRanges_eq size csize hc
  have hk' : k < (size + csize - 1) / csize := by
    rw [chunkRanges_length size csize hc] at hk
    exact hk
  rw [List.get_of_eq h]
  simp

/-- C3: `Client.Upload` partitions `[0, size)` into exactly
`⌈size / csize⌉` contiguous ranges; the `k`-th is
`[k * csize, min ((k+1) * csize, size) - 1]`; the ranges cover `[0, size)`
and are pairwise disjoint; and a 100,000,000-byte source with 16,000,000-byte
chunks yields exactly 7 chunk requests. -/
theorem claim_C3_chunk_partition (size csize : Nat)
    (hs : 0 < size) (hc : 0 < csize) :
    (chunkRanges size csize).length = (size + csize - 1) / csize ∧
    (∀ (k : Nat) (hk : k < (chunkRanges size csize).length),
      (chunkRanges size csize).get ⟨k, hk⟩ =
        (k * csize, min ((k + 1) * csize) size - 1)) ∧
    (∀ x, x < size → ∃ (k : Nat) (hk : k < (chunkRanges size csize).length),
      ((chunkRanges size csize).get ⟨k, hk⟩).1 ≤ x ∧
        x ≤ ((chunkRanges size csize).get ⟨k, hk⟩).2) ∧
    (∀ (j k : Nat) (hj : j < (chunkRanges size csize).length)
      (hk : k < (chunkRanges size csize).length), j < k →
      ((chunkRanges size csize).get ⟨j, hj⟩).2 <
        ((chunkRanges size csize).get ⟨k, hk⟩).1) ∧
    (chunkRanges 100000000 16000000).length = 7 := by
  have hlen := chunkRanges_length size csize hc
  refine ⟨hlen, fun k hk => chunkRanges_get size csize hc k hk, ?_, ?_, ?_⟩
  · intro x hx
    have hklt : x / csize < (size + csize - 1) / csize := by
      have e : size + csize - 1 = (size - 1) + csize := by omega
      rw [e, Nat.add_div_right _ hc]
      exact Nat.lt_succ_of_le (Nat.div_le_div_right (by omega))
    have hklt2 : x / csize < (chunkRanges size csize).length := by
      rw [hlen]
      exact hklt
    refine ⟨x / csize, hklt2, ?_⟩
    rw [chunkRanges_get size csize hc _ hklt2]
    have h1 : x / csize * csize ≤ x := Nat.div_mul_le_self x csize
    have hdm := Nat.div_add_mod x csize
    have hmod : x % csize < csize := Nat.mod_lt _ hc
    have h2 : x < (x / csize + 1) * csize := by
      have e2 : (x / csize + 1) * csize = csize * (x / csize) + csize := by ring
      rw [e2]
      omega
    dsimp only
    omega
  · intro j k hj hk hjk
    rw [chunkRanges_get size csize hc j hj, chunkRanges_get size csize hc k hk]
    dsimp only
    have h1 : (j + 1) * csize ≤ k * csize := Nat.mul_le_mul_right csize (by omega)
    have h2 : 0 < (j + 1) * csize := Nat.mul_pos (by omega) hc
    omega
  · have h7 := chunkRanges_length 100000000 16000000 (by norm_num)
    rw [h7]

/-- Witness for C3 at `size = 5`, `csize = 2`. -/
theorem claim_C3_chunk_partition_witness :
    0 < (5 : Nat) ∧ 0 < (2 : Nat) ∧
      (chunkRanges 5 2).length = (5 + 2 - 1) / 2 ∧
      chunkRanges 5 2 = [(0, 1), (2, 3), (4, 4)] := by
  refine ⟨by norm_num, by norm_num,
    (claim_C3_chunk_partition 5 2 (by norm_num) (by norm_num)).1, ?_⟩
  rw [chunkRanges_eq 5 2 (by norm_num)]
  decide

/-! ## External collaborators

The upload server calls into several external libraries whose internals
the claims do not depend on: the xxhash-64 digest
(`github.com/cespare/xxhash/v2`), UUID parsing and generation
(`github.com/google/uuid`), and `path/filepath.Join`.  They are modelled
as opaque parameters bundled in `Externals`; every theorem below holds
for every instantiation. -/

structure Externals where
  /-- the 64-bit xxhash digest of a byte sequence -/
  xxh64 : List Nat → Nat
  /-- whether `uuid.Parse` succeeds on a string -/
  uuidValid : String → Bool
  /-- the UUID string `uuid.New().String()` returns for the request being
  modelled -/
  freshUUID : String
  /-- `filepath.Join` of two path components -/
  joinPath : String → String → String
  /-- `filepath.Base` of a path (`fi.Name()` of a stat result) -/
  basePath : String → String

/-! ## Upload session server state (`internal/upload/server.go`)

A staging file is a byte list plus its extended attributes; the cache
filesystem and the final store are partial maps from paths to files.
Extended-attribute reads are modelled as failing exactly when the
attribute is absent (`writablefs.ErrNoSuchAttr`); other metadata I/O
errors are not modelled, matching the claims' framing that the final
metadata write itself succeeds. -/

def cacheDir : String := ".bucketeer"

def xAttrChecksum : String := "bucketeer.checksum"

def xAttrPath : String := "bucketeer.path"

def xAttrComplete : String := "bucketeer.complete"

def xAttrError : String := "bucketeer.error"

abbrev XAttrs := String → Option String

def xattrSet (xs : XAttrs) (key val : String) : XAttrs :=
  fun k => if k = key then some val else xs k

structure CacheFile where
  content : List Nat
  xattrs : XAttrs

abbrev CacheFS := String → Option CacheFile

abbrev DstFS := String → Option (List Nat)

structure ServerState where
  cacheFS : CacheFS
  fsys : DstFS

/-- `File.Truncate(n)` semantics: cut to `n` bytes, zero-extending when the
file is shorter. -/
def truncateContent (c : List Nat) (n : Nat) : List Nat :=
  c.take n ++ List.replicate (n - c.length) 0

/-! ## Checksum helpers (`internal/upload/checksum.go`) -/

def algorithmXXH64 : String := "xxh64"

/-- One lowercase hex digit. -/
def hexChar (n : Nat) : Char :=
  if n < 10 then Char.ofNat (48 + n) else Char.ofNat (87 + n)

/-- `hex.EncodeToString(h.Sum(nil))` for an xxhash-64 digest: the 8
big-endian digest bytes as 16 lowercase hex characters. -/
def hexDigest16 (n : Nat) : String :=
  String.mk ((List.range 16).map (fun i => hexChar (n / 16 ^ (15 - i) % 16)))

/-- `checksum(r, algorithm)`: errors on any algorithm other than
`"xxh64"`, otherwise produces `"xxh64:" ++ hex of the digest`. -/
def checksum (ext : Externals) (bs : List Nat) (algorithm : String) :
    Except String String :=
  if algorithm ≠ algorithmXXH64 then
    .error ("unsupported checksum algorithm: " ++ algorithm)
  else
    .ok ("xxh64:" ++ hexDigest16 (ext.xxh64 bs))

/-- `verifyChecksum(r, expected)`: extract the algorithm tag before the
first `':'` (empty when there is none), recompute, compare.  (The source's
`len(parts) != 2` guard after `strings.SplitN(expected, ":", 2)` cannot
fire when `expected` contains `':'` and is kept out of the model.) -/
def verifyChecksum (ext : Externals) (bs : List Nat) (expected : String) :
    Except String Unit :=
  let algorithm := if expected.contains ':' then (expected.splitOn ":").headD ""
    else ""
  match checksum ext bs algorithm with
  | .error e => .error e
  | .ok actual =>
    if actual ≠ expected then
      .error ("checksum mismatch: expected " ++ expected ++ ", got " ++ actual)
    else
      .ok ()

/-! ## `Server.New` -/

inductive ErrCode where
  | invalidArgument
  | internal
  | notFound
deriving DecidableEq

structure ConnectErr where
  code : ErrCode
  msg : String

/-- `Server.New(path, size, checksum)`: reject missing arguments, create
the staging file under a fresh UUID, truncate it to `size` bytes, attach
the checksum and destination-path attributes.  Cache-filesystem failures
(directory creation, open, truncate, xattr I/O) are not modelled: the
claim only speaks about runs where they succeed. -/
def serverNew (ext : Externals) (st : ServerState)
    (path : String) (size : Nat) (cksum : String) :
    Except ConnectErr (String × ServerState) :=
  if size = 0 ∨ path = "" ∨ cksum = "" then
    .error ⟨.invalidArgument, "missing required arguments"⟩
  else
    let uploadID := ext.freshUUID
    let cachePath := ext.joinPath cacheDir uploadID
    -- OpenFile(FlagWriteOnly|FlagCreate): reuse an existing file, else
    -- create an empty one (the MkdirAll fallback always succeeds here).
    let f0 : CacheFile :=
      match st.cacheFS cachePath with
      | some f => f
      | none => { content := [], xattrs := fun _ => none }
    let f1 : CacheFile := { f0 with content := truncateContent f0.content size }
    let f2 : CacheFile :=
      { f1 with xattrs :=
          xattrSet (xattrSet f1.xattrs xAttrChecksum cksum) xAttrPath path }
    .ok (uploadID,
      { st with cacheFS :=
          fun p => if p = cachePath then some f2 else st.cacheFS p })

/-! ## The completion job (`Server.Complete`)

`Server.Complete` validates the upload ID and enqueues a closure on the
completion queue; the closure runs `completeFn` and then — in a `defer`,
so regardless of `completeFn`'s outcome — writes the final metadata.
Destination-store failures (`MkdirAll`, the copy) depend on the
environment and are injected through `Faults`. -/

structure Faults where
  /-- result of `s.fsys.MkdirAll(filepath.Dir(dstPath))`: `some msg` if it
  failed -/
  mkdirErr : Option String
  /-- result of the `copyFile` step: `some msg` if it failed (a failed copy
  is modelled as writing nothing) -/
  copyErr : Option String

/-- The body of the queued completion closure before its deferred final
metadata write (`completeFn` in `Server.Complete`). -/
def completeFn (ext : Externals) (flt : Faults) (st : ServerState)
    (cachePath : String) : Except String ServerState :=
  match st.cacheFS cachePath with
  | none => .error "file does not exist"
  | some f =>
    match f.xattrs xAttrChecksum with
    | none => .error "error getting checksum xattr: no such attribute"
    | some expectedChecksum =>
      match f.xattrs xAttrPath with
      | none => .error "error getting path xattr: no such attribute"
      | some dstPath =>
        match verifyChecksum ext f.content expectedChecksum with
        | .error e => .error ("checksum mismatch: " ++ e)
        | .ok _ =>
          match flt.mkdirErr with
          | some e => .error e
          | none =>
            match flt.copyErr with
            | some e => .error e
            | none =>
              -- copyFile(cacheFS, cachePath, fsys, dstPath), then
              -- f.Truncate(0) on the staging file.
              .ok { st with
                fsys := fun p => if p = dstPath then some f.content else st.fsys p,
                cacheFS := fun p =>
                  if p = cachePath then some { f with content := [] }
                  else st.cacheFS p }

/-- The whole queued completion closure: run `completeFn`, then (deferred,
regardless of the outcome) set the error attribute when the job failed and
set `complete="true"`.  Returns the resulting state and the job's error.
If the staging file has vanished the deferred writer cannot open it and
the metadata write is lost (the real code would crash on its nil file
handle there); every claim assumes the staging file exists. -/
def completionJob (ext : Externals) (flt : Faults) (st : ServerState)
    (cachePath : String) : ServerState × Option String :=
  let step : ServerState × Option String :=
    match completeFn ext flt st cachePath with
    | .ok st2 => (st2, none)
    | .error e => (st, some e)
  match step.1.cacheFS cachePath with
  | none => step
  | some f =>
    let xs1 : XAttrs :=
      match step.2 with
      | some e => xattrSet f.xattrs xAttrError e
      | none => f.xattrs
    let xs2 := xattrSet xs1 xAttrComplete "true"
    ({ step.1 with cacheFS :=
        fun p => if p = cachePath then some { f with xattrs := xs2 }
          else step.1.cacheFS p },
      step.2)

/-- `Server.Complete`'s request-path part: validate the upload ID and
return the staging path of the job it enqueues. -/
def serverComplete (ext : Externals) (uploadID : String) :
    Except ConnectErr String :=
  if ext.uuidValid uploadID then
    .ok (ext.joinPath cacheDir uploadID)
  else
    .error ⟨.invalidArgument, "invalid upload ID"⟩

/-! ## `Server.PollForCompletion` -/

inductive CompletionStatus where
  | pending
  | completed
  | failed
deriving DecidableEq

structure CompleteResponse where
  status : CompletionStatus
  error : String

def pollForCompletion (ext : Externals) (st : ServerState)
    (uploadID : String) : Except ConnectErr CompleteResponse :=
  if ext.uuidValid uploadID then
    match st.cacheFS (ext.joinPath cacheDir uploadID) with
    | none => .error ⟨.notFound, "upload not found"⟩
    | some f =>
      let complete := f.xattrs xAttrComplete
      if complete = none ∨ complete ≠ some "true" then
        .ok ⟨.pending, ""⟩
      else
        match f.xattrs xAttrError with
        | some e => .ok ⟨.failed, e⟩
        | none => .ok ⟨.completed, ""⟩
  else
    .error ⟨.invalidArgument, "invalid upload ID"⟩

/-- C4: for a well-formed upload ID, `PollForCompletion` reports a missing
staging file as not-found (not `Pending`); an existing staging file is
`Pending` while the `complete` attribute is not `"true"` (in particular
while absent), `Failed` carrying the stored error message when
`complete="true"` and an error attribute is present, and `Completed` when
`complete="true"` and no error attribute is present. -/
theorem claim_C4_poll_states (ext : Externals) (st : ServerState)
    (uploadID : String) (hval : ext.uuidValid uploadID = true) :
    (st.cacheFS (ext.joinPath cacheDir uploadID) = none →
      pollForCompletion ext st uploadID =
        .error ⟨.notFound, "upload not found"⟩) ∧
    (∀ f, st.cacheFS (ext.joinPath cacheDir uploadID) = some f →
      f.xattrs xAttrComplete ≠ some "true" →
      pollForCompletion ext st uploadID = .ok ⟨.pending, ""⟩) ∧
    (∀ f e, st.cacheFS (ext.joinPath cacheDir uploadID) = some f →
      f.xattrs xAttrComplete = some "true" →
      f.xattrs xAttrError = some e →
      pollForCompletion ext st uploadID = .ok ⟨.failed, e⟩) ∧
    (∀ f, st.cacheFS (ext.joinPath cacheDir uploadID) = some f →
      f.xattrs xAttrComplete = some "true" →
      f.xattrs xAttrError = none →
      pollForCompletion ext st uploadID = .ok ⟨.completed, ""⟩) := by
  refine ⟨?_, ?_, ?_, ?_⟩
  · intro hnone
    simp [pollForCompletion, hval, hnone]
  · intro f hf hc
    simp [pollForCompletion, hval, hf, hc]
  · intro f e hf hc he
    simp [pollForCompletion, hval, hf, hc, he]
  · intro f hf hc he
    simp [pollForCompletion, hval, hf, hc, he]

/-- C5: `New` rejects empty path, zero size or empty checksum as invalid
input; on valid input (with a fresh staging path and the cache filesystem
cooperating) it creates a zero-filled staging file of exactly `size`
bytes, attaches the checksum and destination-path attributes to it,
leaves every other staging path alone, and returns the freshly generated
UUID. -/
theorem claim_C5_new_session (ext : Externals) (st : ServerState)
    (path : String) (size : Nat) (cksum : String) :
    ((size = 0 ∨ path = "" ∨ cksum = "") →
      serverNew ext st path size cksum =
        .error ⟨.invalidArgument, "missing required arguments"⟩) ∧
    (path ≠ "" → size ≠ 0 → cksum ≠ "" →
      st.cacheFS (ext.joinPath cacheDir ext.freshUUID) = none →
      ∃ st2, serverNew ext st path size cksum = .ok (ext.freshUUID, st2) ∧
        ∃ f, st2.cacheFS (ext.joinPath cacheDir ext.freshUUID) = some f ∧
          f.content = List.replicate size 0 ∧
          f.xattrs xAttrChecksum = some cksum ∧
          f.xattrs xAttrPath = some path ∧
          f.xattrs xAttrComplete = none ∧
          f.xattrs xAttrError = none ∧
          (∀ p, p ≠ ext.joinPath cacheDir ext.freshUUID →
            st2.cacheFS p = st.cacheFS p) ∧
          st2.fsys = st.fsys) := by
  constructor
  · intro hbad
    simp [serverNew, hbad]
  · intro hp hs hck hfresh
    have hguard : ¬(size = 0 ∨ path = "" ∨ cksum = "") := by
      push_neg
      exact ⟨hs, hp, hck⟩
    have hrun : serverNew ext st path size cksum =
        .ok (ext.freshUUID,
          { st with cacheFS := fun p =>
              if p = ext.joinPath cacheDir ext.freshUUID then
                some { content := truncateContent [] size,
                       xattrs := xattrSet (xattrSet (fun _ => none)
                         xAttrChecksum cksum) xAttrPath path }
              else st.cacheFS p }) := by
      simp [serverNew, hguard, hfresh]
    refine ⟨_, hrun, ?_⟩
    refine ⟨_, if_pos rfl, ?_, ?_, ?_, ?_, ?_, ?_, ?_⟩
    · simp [truncateContent]
    · simp [xattrSet, xAttrChecksum, xAttrPath]
    · simp [xattrSet, xAttrPath]
    · simp [xattrSet, xAttrComplete, xAttrChecksum, xAttrPath]
    · simp [xattrSet, xAttrError, xAttrChecksum, xAttrPath]
    · intro p hps
      simp [hps]
    · rfl

/-! ## C1 and C2: the completion job's terminal metadata write -/

/-- When `completeFn` succeeds the staging file has been truncated to zero
bytes, its attributes untouched. -/
theorem completeFn_ok_state (ext : Externals) (flt : Faults)
    (st st2 : ServerState) (cachePath : String) (f : CacheFile)
    (hf : st.cacheFS cachePath = some f)
    (hok : completeFn ext flt st cachePath = .ok st2) :
    st2.cacheFS cachePath = some { f with content := [] } := by
  unfold completeFn at hok
  rw [hf] at hok
  repeat' split at hok
  all_goals cases hok
  simp_all

/-- `verifyChecksum` fails whenever the recomputed `"xxh64:..."` string
differs from the expected one (a wrong algorithm tag also fails, before
the comparison). -/
theorem verifyChecksum_mismatch (ext : Externals) (bs : List Nat)
    (exp : String)
    (hmis : "xxh64:" ++ hexDigest16 (ext.xxh64 bs) ≠ exp) :
    ∃ msg, verifyChecksum ext bs exp = .error msg := by
  unfold verifyChecksum checksum
  by_cases halg :
      (if exp.contains ':' then (exp.splitOn ":").headD "" else "") =
        algorithmXXH64
  · rw [halg]
    have hne : ("xxh64:" ++ hexDigest16 (ext.xxh64 bs)) ≠ exp := hmis
    refine ⟨"checksum mismatch: expected " ++ exp ++ ", got " ++
      ("xxh64:" ++ hexDigest16 (ext.xxh64 bs)), ?_⟩
    simp [algorithmXXH64, hne]
  · simp only [ne_eq, halg, not_false_iff, ite_true]
    exact ⟨_, rfl⟩

/-- Update a single staging path of the server state (the result of the
deferred metadata write). -/
def setCacheFile (st : ServerState) (p0 : String) (f0 : CacheFile) :
    ServerState :=
  { st with cacheFS := fun p => if p = p0 then some f0 else st.cacheFS p }

/-- C1: whatever the completion job's body does — checksum match or
mismatch, destination-directory creation and copy succeeding or failing —
the job's final (deferred) metadata write leaves the staging file with
`complete="true"`, with the error attribute holding exactly the failure
message when the job failed and still absent when it succeeded; a poll
after the job therefore reports `Failed` with that message, or
`Completed`, never `Pending`. -/
theorem claim_C1_completion_always_terminal (ext : Externals)
    (flt : Faults) (st : ServerState) (uploadID : String) (f : CacheFile)
    (hval : ext.uuidValid uploadID = true)
    (hf : st.cacheFS (ext.joinPath cacheDir uploadID) = some f)
    (herr0 : f.xattrs xAttrError = none) :
    ∃ st2 cerr,
      completionJob ext flt st (ext.joinPath cacheDir uploadID) =
        (st2, cerr) ∧
      ∃ f2, st2.cacheFS (ext.joinPath cacheDir uploadID) = some f2 ∧
        f2.xattrs xAttrComplete = some "true" ∧
        (∀ e, cerr = some e → f2.xattrs xAttrError = some e) ∧
        (cerr = none → f2.xattrs xAttrError = none) ∧
        pollForCompletion ext st2 uploadID =
          .ok (match cerr with
            | some e => ⟨.failed, e⟩
            | none => ⟨.completed, ""⟩) ∧
        ∀ r, pollForCompletion ext st2 uploadID = .ok r →
          r.status ≠ .pending := by
  cases hres : completeFn ext flt st (ext.joinPath cacheDir uploadID) with
  | ok stOk =>
    have hok := completeFn_ok_state ext flt st stOk
      (ext.joinPath cacheDir uploadID) f hf hres
    have hjob : completionJob ext flt st (ext.joinPath cacheDir uploadID) =
        (setCacheFile stOk (ext.joinPath cacheDir uploadID)
          (CacheFile.mk [] (xattrSet f.xattrs xAttrComplete "true")), none) := by
      unfold completionJob setCacheFile
      rw [hres]
      simp only [hok]
    refine ⟨_, _, hjob, ?_⟩
    have hpoll : pollForCompletion ext
        (setCacheFile stOk (ext.joinPath cacheDir uploadID)
          (CacheFile.mk [] (xattrSet f.xattrs xAttrComplete "true")))
        uploadID = .ok ⟨.completed, ""⟩ := by
      have herr0b : f.xattrs "bucketeer.error" = none := herr0
      simp [pollForCompletion, setCacheFile, hval, xattrSet, xAttrError,
        xAttrComplete, herr0b]
    refine ⟨CacheFile.mk [] (xattrSet f.xattrs xAttrComplete "true"),
      by simp [setCacheFile], ?_, ?_, ?_, hpoll, ?_⟩
    · simp [xattrSet]
    · intro e he
      cases he
    · intro _
      have herr0b : f.xattrs "bucketeer.error" = none := herr0
      simp [xattrSet, xAttrError, xAttrComplete, herr0b]
    · intro r hr
      rw [hpoll] at hr
      cases hr
      simp
  | error e =>
    have hjob : completionJob ext flt st (ext.joinPath cacheDir uploadID) =
        (setCacheFile st (ext.joinPath cacheDir uploadID)
          (CacheFile.mk f.content
            (xattrSet (xattrSet f.xattrs xAttrError e) xAttrComplete "true")),
          some e) := by
      unfold completionJob setCacheFile
      rw [hres]
      simp only [hf]
    refine ⟨_, _, hjob, ?_⟩
    have hpoll : pollForCompletion ext
        (setCacheFile st (ext.joinPath cacheDir uploadID)
          (CacheFile.mk f.content
            (xattrSet (xattrSet f.xattrs xAttrError e) xAttrComplete "true")))
        uploadID = .ok ⟨.failed, e⟩ := by
      simp [pollForCompletion, setCacheFile, hval, xattrSet, xAttrError,
        xAttrComplete]
    refine ⟨CacheFile.mk f.content
        (xattrSet (xattrSet f.xattrs xAttrError e) xAttrComplete "true"),
      by simp [setCacheFile], ?_, ?_, ?_, hpoll, ?_⟩
    · simp [xattrSet]
    · intro e2 he2
      cases he2
      simp [xattrSet, xAttrError, xAttrComplete]
    · intro h
      cases h
    · intro r hr
      rw [hpoll] at hr
      cases hr
      simp

/-- The completion job's result when its body fails: state untouched
except for the deferred error/complete attribute write. -/
theorem completionJob_err (ext : Externals) (flt : Faults)
    (st : ServerState) (cachePath e : String) (f : CacheFile)
    (hf : st.cacheFS cachePath = some f)
    (hres : completeFn ext flt st cachePath = .error e) :
    completionJob ext flt st cachePath =
      (setCacheFile st cachePath
        (CacheFile.mk f.content
          (xattrSet (xattrSet f.xattrs xAttrError e) xAttrComplete "true")),
        some e) := by
  unfold completionJob setCacheFile
  rw [hres]
  simp only [hf]

/-- C2: when the staged bytes do not hash to the recorded
`expectedChecksum`, the completion job fails with a non-empty error
message before touching the final store: the final store is unchanged, in
particular no file appears at the destination path, and a poll afterwards
reports `Failed` with that message. -/
theorem claim_C2_mismatch_no_copy (ext : Externals) (flt : Faults)
    (st : ServerState) (uploadID : String) (f : CacheFile)
    (exp dst : String)
    (hval : ext.uuidValid uploadID = true)
    (hf : st.cacheFS (ext.joinPath cacheDir uploadID) = some f)
    (hcks : f.xattrs xAttrChecksum = some exp)
    (hpath : f.xattrs xAttrPath = some dst)
    (hmis : "xxh64:" ++ hexDigest16 (ext.xxh64 f.content) ≠ exp) :
    ∃ st2 e,
      completionJob ext flt st (ext.joinPath cacheDir uploadID) =
        (st2, some e) ∧
      e ≠ "" ∧
      st2.fsys = st.fsys ∧
      (st.fsys dst = none → st2.fsys dst = none) ∧
      pollForCompletion ext st2 uploadID = .ok ⟨.failed, e⟩ := by
  obtain ⟨msg, hv⟩ := verifyChecksum_mismatch ext f.content exp hmis
  have hcf : completeFn ext flt st (ext.joinPath cacheDir uploadID) =
      .error ("checksum mismatch: " ++ msg) := by
    unfold completeFn
    simp only [hf, hcks, hpath, hv]
  have hjob := completionJob_err ext flt st (ext.joinPath cacheDir uploadID)
    ("checksum mismatch: " ++ msg) f hf hcf
  refine ⟨_, _, hjob, ?_, rfl, fun h0 => h0, ?_⟩
  · intro hemp
    have h2 := congrArg String.length hemp
    rw [String.length_append] at h2
    have h3 : (0 : Nat) < ("checksum mismatch: " : String).length := by decide
    have h4 : ("" : String).length = 0 := rfl
    omega
  · simp [pollForCompletion, setCacheFile, hval, xattrSet, xAttrError,
      xAttrComplete]

/-! ## Concrete fixtures for the witnesses -/

def extW : Externals :=
  { xxh64 := fun _ => 0
    uuidValid := fun _ => true
    freshUUID := "7f9c2ba4-e88f-11ea-b9d0-cba3f2acd9e5"
    joinPath := fun a b => a ++ "/" ++ b
    basePath := fun p => p }

def fltW : Faults := { mkdirErr := none, copyErr := none }

def uploadIDW : String := "7f9c2ba4-e88f-11ea-b9d0-cba3f2acd9e5"

def fileWAttrs : XAttrs :=
  fun k =>
    if k = xAttrChecksum then some "xxh64:ffffffffffffffff"
    else if k = xAttrPath then some "dest/file.bin"
    else none

def fileW : CacheFile := { content := [1, 2, 3], xattrs := fileWAttrs }

def stW : ServerState :=
  { cacheFS := fun p =>
      if p = extW.joinPath cacheDir uploadIDW then some fileW else none
    fsys := fun _ => none }

def stEmptyW : ServerState :=
  { cacheFS := fun _ => none, fsys := fun _ => none }

/-- Witness for C1: the concrete session `stW` (whose stored checksum does
not match, so the job fails) still ends with terminal metadata. -/
theorem claim_C1_completion_always_terminal_witness :
    extW.uuidValid uploadIDW = true ∧
    stW.cacheFS (extW.joinPath cacheDir uploadIDW) = some fileW ∧
    fileW.xattrs xAttrError = none ∧
    (∃ st2 cerr,
      completionJob extW fltW stW (extW.joinPath cacheDir uploadIDW) =
        (st2, cerr) ∧
      ∃ f2, st2.cacheFS (extW.joinPath cacheDir uploadIDW) = some f2 ∧
        f2.xattrs xAttrComplete = some "true" ∧
        (∀ e, cerr = some e → f2.xattrs xAttrError = some e) ∧
        (cerr = none → f2.xattrs xAttrError = none) ∧
        pollForCompletion extW st2 uploadIDW =
          .ok (match cerr with
            | some e => ⟨.failed, e⟩
            | none => ⟨.completed, ""⟩) ∧
        ∀ r, pollForCompletion extW st2 uploadIDW = .ok r →
          r.status ≠ .pending) :=
  ⟨rfl, rfl, rfl,
    claim_C1_completion_always_terminal extW fltW stW uploadIDW fileW
      rfl rfl rfl⟩

/-- Witness for C2 on the concrete mismatching session `stW`. -/
theorem claim_C2_mismatch_no_copy_witness :
    extW.uuidValid uploadIDW = true ∧
    stW.cacheFS (extW.joinPath cacheDir uploadIDW) = some fileW ∧
    fileW.xattrs xAttrChecksum = some "xxh64:ffffffffffffffff" ∧
    fileW.xattrs xAttrPath = some "dest/file.bin" ∧
    "xxh64:" ++ hexDigest16 (extW.xxh64 fileW.content) ≠
      "xxh64:ffffffffffffffff" ∧
    (∃ st2 e,
      completionJob extW fltW stW (extW.joinPath cacheDir uploadIDW) =
        (st2, some e) ∧
      e ≠ "" ∧
      st2.fsys = stW.fsys ∧
      (stW.fsys "dest/file.bin" = none → st2.fsys "dest/file.bin" = none) ∧
      pollForCompletion extW st2 uploadIDW = .ok ⟨.failed, e⟩) :=
  ⟨rfl, rfl, rfl, rfl, by decide,
    claim_C2_mismatch_no_copy extW fltW stW uploadIDW fileW
      "xxh64:ffffffffffffffff" "dest/file.bin" rfl rfl rfl rfl (by decide)⟩

/-- Witness for C4: on an empty staging store a poll reports not-found;
on `stW` (no `complete` attribute yet) it reports `Pending`. -/
theorem claim_C4_poll_states_witness :
    extW.uuidValid uploadIDW = true ∧
    stEmptyW.cacheFS (extW.joinPath cacheDir uploadIDW) = none ∧
    pollForCompletion extW stEmptyW uploadIDW =
      .error ⟨.notFound, "upload not found"⟩ ∧
    pollForCompletion extW stW uploadIDW = .ok ⟨.pending, ""⟩ :=
  ⟨rfl, rfl,
    (claim_C4_poll_states extW stEmptyW uploadIDW rfl).1 rfl,
    (claim_C4_poll_states extW stW uploadIDW rfl).2.1 fileW rfl (by decide)⟩

/-- Witness for C5: a rejected empty-path request and an accepted one. -/
theorem claim_C5_new_session_witness :
    serverNew extW stEmptyW "" 3 "xxh64:aa" =
      .error ⟨.invalidArgument, "missing required arguments"⟩ ∧
    (∃ st2, serverNew extW stEmptyW "dest/file.bin" 3 "xxh64:aa" =
        .ok (extW.freshUUID, st2) ∧
      ∃ f, st2.cacheFS (extW.joinPath cacheDir extW.freshUUID) = some f ∧
        f.content = List.replicate 3 0 ∧
        f.xattrs xAttrChecksum = some "xxh64:aa" ∧
        f.xattrs xAttrPath = some "dest/file.bin" ∧
        f.xattrs xAttrComplete = none ∧
        f.xattrs xAttrError = none ∧
        (∀ p, p ≠ extW.joinPath cacheDir extW.freshUUID →
          st2.cacheFS p = stEmptyW.cacheFS p) ∧
        st2.fsys = stEmptyW.fsys) :=
  ⟨(claim_C5_new_session extW stEmptyW "" 3 "xxh64:aa").1 (Or.inr (Or.inl rfl)),
    (claim_C5_new_session extW stEmptyW "dest/file.bin" 3 "xxh64:aa").2
      (by decide) (by decide) (by decide) rfl⟩

/-! ## Client chunk retry policy (`Client.uploadChunk`)

`uploadChunk` runs one HTTP attempt inside `retry.Do(...,
retry.Attempts(uint(c.opts.MaxRetryAttempts)))`.  A 204 response
succeeds; a response in the 4xx class is wrapped in
`retry.Unrecoverable`, which makes `retry.Do` stop immediately; any other
failure (transport error or a non-204, non-4xx status) is a plain error
that `retry.Do` retries with backoff until the attempt budget is spent.
Backoff delays are timing behaviour and are not modelled; attempt counts
and outcome classification are. -/

/-- The observable outcome of one HTTP attempt. -/
inductive AttemptOutcome where
  | transport (msg : String)
  | status (code : Nat) (body : String)

/-- An error as `retry.Do` sees it: message plus whether it was wrapped in
`retry.Unrecoverable`. -/
structure RetryErr where
  msg : String
  unrecoverable : Bool

/-- One attempt body of `uploadChunk` (reading the response body is
modelled as always succeeding). -/
def attemptOnce (o : AttemptOutcome) : Except RetryErr Unit :=
  match o with
  | .transport msg => .error ⟨msg, false⟩
  | .status code body =>
    if code = 204 then .ok ()
    else if 400 ≤ code ∧ code < 500 then
      .error ⟨"failed to upload chunk: " ++ body, true⟩
    else
      .error ⟨"failed to upload chunk: " ++ body, false⟩

/-- `retry.Do` with a positive attempt budget: run attempt `i`; stop on
success or on an unrecoverable error; otherwise retry while the budget
lasts.  Returns the final result and the number of attempts made.
(retry-go's `Attempts(0)` unbounded mode is not reachable from
`uploadChunk`, whose `MaxRetryAttempts` is positive.) -/
def retryDo (attempt : Nat → Except RetryErr Unit) :
    Nat → Nat → Except RetryErr Unit × Nat
  | i, 0 =>
    match attempt i with
    | .ok () => (.ok (), 1)
    | .error e => (.error e, 1)
  | i, 1 =>
    match attempt i with
    | .ok () => (.ok (), 1)
    | .error e => (.error e, 1)
  | i, r + 2 =>
    match attempt i with
    | .ok () => (.ok (), 1)
    | .error e =>
      if e.unrecoverable then (.error e, 1)
      else
        let res := retryDo attempt (i + 1) (r + 1)
        (res.1, res.2 + 1)

/-- `Client.uploadChunk` as seen through its per-attempt outcomes. -/
def uploadChunkModel (outcomes : Nat → AttemptOutcome)
    (maxAttempts : Nat) : Except RetryErr Unit × Nat :=
  retryDo (fun i => attemptOnce (outcomes i)) 0 maxAttempts

/-- The attempt got a 4xx-class response. -/
def is4xxOutcome (o : AttemptOutcome) : Prop :=
  match o with
  | .transport _ => False
  | .status code _ => 400 ≤ code ∧ code < 500

/-- The attempt failed in a way `retry.Do` will retry: a transport error,
or a non-204 status outside the 4xx class. -/
def isRecoverableFailure (o : AttemptOutcome) : Prop :=
  match o with
  | .transport _ => True
  | .status code _ => code ≠ 204 ∧ ¬(400 ≤ code ∧ code < 500)

theorem attemptOnce_of_4xx (o : AttemptOutcome) (h : is4xxOutcome o) :
    ∃ m, attemptOnce o = .error ⟨m, true⟩ := by
  cases o with
  | transport m => exact absurd h (by simp [is4xxOutcome])
  | status code body =>
    have h3 : 400 ≤ code ∧ code < 500 := h
    have h2 : code ≠ 204 := by
      have := h3.1
      omega
    exact ⟨"failed to upload chunk: " ++ body, by simp [attemptOnce, h2, h3]⟩

theorem attemptOnce_of_recoverable (o : AttemptOutcome)
    (h : isRecoverableFailure o) :
    ∃ m, attemptOnce o = .error ⟨m, false⟩ := by
  cases o with
  | transport m => exact ⟨m, rfl⟩
  | status code body =>
    exact ⟨"failed to upload chunk: " ++ body,
      by simp [attemptOnce, h.1, h.2]⟩

theorem retryDo_unrecoverable (attempt : Nat → Except RetryErr Unit) :
    ∀ (k i remaining : Nat), k < remaining →
    (∀ j, j < k → ∃ m, attempt (i + j) = .error ⟨m, false⟩) →
    (∃ m, attempt (i + k) = .error ⟨m, true⟩) →
    ∃ e, retryDo attempt i remaining = (.error e, k + 1) ∧
      e.unrecoverable = true := by
  intro k
  induction k with
  | zero =>
    intro i remaining hk hrec hun
    obtain ⟨m, hm⟩ := hun
    rw [Nat.add_zero] at hm
    refine ⟨⟨m, true⟩, ?_, rfl⟩
    match remaining, hk with
    | 1, _ => simp [retryDo, hm]
    | r + 2, _ => simp [retryDo, hm]
  | succ k ih =>
    intro i remaining hk hrec hun
    obtain ⟨m0, hm0⟩ := hrec 0 (Nat.succ_pos k)
    rw [Nat.add_zero] at hm0
    obtain ⟨r, hr⟩ : ∃ r, remaining = r + 2 := by
      refine ⟨remaining - 2, ?_⟩
      omega
    subst hr
    obtain ⟨e, he, heu⟩ := ih (i + 1) (r + 1) (by omega)
      (fun j hj => by
        have h2 := hrec (j + 1) (by omega)
        rwa [show i + (j + 1) = i + 1 + j by omega] at h2)
      (by rwa [show i + (k + 1) = i + 1 + k by omega] at hun)
    refine ⟨e, ?_, heu⟩
    have hrecov : (⟨m0, false⟩ : RetryErr).unrecoverable = false := rfl
    simp [retryDo, hm0, he]

theorem retryDo_exhaust (attempt : Nat → Except RetryErr Unit) :
    ∀ (remaining i : Nat), 0 < remaining →
    (∀ j, j < remaining → ∃ m, attempt (i + j) = .error ⟨m, false⟩) →
    ∃ e, retryDo attempt i remaining = (.error e, remaining) ∧
      e.unrecoverable = false := by
  intro remaining
  induction remaining with
  | zero => omega
  | succ r ih =>
    intro i _ hrec
    obtain ⟨m0, hm0⟩ := hrec 0 (Nat.succ_pos r)
    rw [Nat.add_zero] at hm0
    match r, ih with
    | 0, _ => exact ⟨⟨m0, false⟩, by simp [retryDo, hm0], rfl⟩
    | r2 + 1, ih =>
      obtain ⟨e, he, heu⟩ := ih (i + 1) (Nat.succ_pos r2)
        (fun j hj => by
          have h2 := hrec (j + 1) (by omega)
          rwa [show i + (j + 1) = i + 1 + j by omega] at h2)
      refine ⟨e, ?_, heu⟩
      simp [retryDo, hm0, he]

/-- C7: a 4xx-class response at some attempt stops `uploadChunk` at that
very attempt (no further attempts) with an unrecoverable error; when
every attempt fails recoverably (transport error or non-4xx, non-204
status), exactly `MaxRetryAttempts` attempts are made before the chunk is
reported failed. -/
theorem claim_C7_retry_policy (outcomes : Nat → AttemptOutcome)
    (maxAttempts : Nat) (hA : 0 < maxAttempts) :
    (∀ k, k < maxAttempts → is4xxOutcome (outcomes k) →
      (∀ j, j < k → isRecoverableFailure (outcomes j)) →
      ∃ e, uploadChunkModel outcomes maxAttempts = (.error e, k + 1) ∧
        e.unrecoverable = true) ∧
    ((∀ j, j < maxAttempts → isRecoverableFailure (outcomes j)) →
      ∃ e, uploadChunkModel outcomes maxAttempts = (.error e, maxAttempts) ∧
        e.unrecoverable = false) := by
  constructor
  · intro k hk h4 hrec
    exact retryDo_unrecoverable (fun i => attemptOnce (outcomes i)) k 0
      maxAttempts hk
      (fun j hj => by
        rw [Nat.zero_add]
        exact attemptOnce_of_recoverable _ (hrec j hj))
      (by
        rw [Nat.zero_add]
        exact attemptOnce_of_4xx _ h4)
  · intro hrec
    exact retryDo_exhaust (fun i => attemptOnce (outcomes i)) maxAttempts 0
      hA (fun j hj => by
        rw [Nat.zero_add]
        exact attemptOnce_of_recoverable _ (hrec j hj))

def outcomes4xxW : Nat → AttemptOutcome :=
  fun i => if i = 0 then .status 500 "bad gateway" else .status 403 "denied"

def outcomes5xxW : Nat → AttemptOutcome :=
  fun _ => .status 500 "bad gateway"

/-- Witness for C7: a 403 on the second attempt stops after 2 attempts;
three straight 500s exhaust the 3-attempt budget. -/
theorem claim_C7_retry_policy_witness :
    0 < 3 ∧
    (∃ e, uploadChunkModel outcomes4xxW 3 = (.error e, 2) ∧
      e.unrecoverable = true) ∧
    (∃ e, uploadChunkModel outcomes5xxW 3 = (.error e, 3) ∧
      e.unrecoverable = false) :=
  ⟨by norm_num,
    (claim_C7_retry_policy outcomes4xxW 3 (by norm_num)).1 1 (by norm_num)
      (by simp [outcomes4xxW, is4xxOutcome])
      (fun j hj => by
        have hj0 : j = 0 := by omega
        subst hj0
        exact ⟨by norm_num, by norm_num⟩),
    (claim_C7_retry_policy outcomes5xxW 3 (by norm_num)).2
      (fun j hj => ⟨by norm_num, by norm_num⟩)⟩

/-! ## Directory archiver (`internal/download/archive.go`)

`tarToZip` walks the tar stream entry by entry, skips everything that is
not a regular file (`header.Typeflag != tar.TypeReg`), and re-encodes
each regular entry as a deflate zip entry carrying the same modification
time and size, named `filepath.Join(prefix, header.Name)` when a prefix
is given.  The model takes the stream as a list of already-decoded
entries; a read or write error aborts the stream in the source and is
outside this model, which describes the archive produced from the
entries that are delivered. -/

/-- `tar.TypeReg`. -/
def tarTypeReg : Char := '0'

structure TarHeader where
  name : String
  typeflag : Char
  /-- modification time, as an opaque timestamp -/
  modTime : Int
  size : Nat

structure TarEntry where
  header : TarHeader
  content : List Nat

/-- A zip entry as `zw.CreateHeader` + `io.Copy` produce it; `method = 8`
is `zip.Deflate`. -/
structure ZipEntry where
  name : String
  method : Nat
  modified : Int
  uncompressedSize : Nat
  content : List Nat

def tarToZip (ext : Externals) (entries : List TarEntry) (pfx : String) :
    List ZipEntry :=
  match entries with
  | [] => []
  | e :: rest =>
    if e.header.typeflag ≠ tarTypeReg then
      tarToZip ext rest pfx
    else
      ZipEntry.mk
        (if pfx ≠ "" then ext.joinPath pfx e.header.name else e.header.name)
        8 e.header.modTime e.header.size e.content :: tarToZip ext rest pfx

/-- C9: the zip archive contains exactly one entry per regular-file tar
entry — non-regular entries contribute nothing — and each zip entry keeps
the tar entry's name (joined under the prefix, the archived directory's
base name), modification time and uncompressed size. -/
theorem claim_C9_tar_to_zip (ext : Externals) (entries : List TarEntry)
    (pfx : String) :
    tarToZip ext entries pfx =
      (entries.filter (fun e => e.header.typeflag == tarTypeReg)).map
        (fun e => ZipEntry.mk
          (if pfx ≠ "" then ext.joinPath pfx e.header.name
            else e.header.name)
          8 e.header.modTime e.header.size e.content) ∧
    (tarToZip ext entries pfx).length =
      (entries.filter (fun e => e.header.typeflag == tarTypeReg)).length := by
  have hmain : tarToZip ext entries pfx =
      (entries.filter (fun e => e.header.typeflag == tarTypeReg)).map
        (fun e => ZipEntry.mk
          (if pfx ≠ "" then ext.joinPath pfx e.header.name
            else e.header.name)
          8 e.header.modTime e.header.size e.content) := by
    induction entries with
    | nil => rfl
    | cons e rest ih =>
      by_cases hreg : e.header.typeflag = tarTypeReg
      · rw [tarToZip]
        simp [hreg, ih]
      · rw [tarToZip]
        simp [hreg, ih]
  exact ⟨hmain, by rw [hmain, List.length_map]⟩

/-! ## Content-Range header (`internal/util/contentrange` and
`Client.uploadChunk`)

The parser works character by character, so strings are modelled as
`List Char` here.  `splitOnChar` is `strings.Split` for a one-character
separator; `parseInt64` is `strconv.ParseInt(s, 10, 64)`;
`parseContentRange` is `contentrange.Parse`;
`clientContentRangeHeader` is the header string `uploadChunk` emits with
`fmt.Sprintf("bytes %d-%d/%d", start, end, size)`. -/

/-- `strings.Split` with a single-character separator. -/
def splitOnChar (sep : Char) : List Char → List (List Char)
  | [] => [[]]
  | c :: rest =>
    if c = sep then
      [] :: splitOnChar sep rest
    else
      match splitOnChar sep rest with
      | [] => [[c]]
      | h :: t => (c :: h) :: t

theorem splitOnChar_ne_nil (sep : Char) (l : List Char) :
    splitOnChar sep l ≠ [] := by
  cases l with
  | nil => simp [splitOnChar]
  | cons c rest =>
    rw [splitOnChar]
    by_cases h : c = sep
    · simp [h]
    · simp only [h, if_false]
      split <;> simp

theorem splitOnChar_no_sep (sep : Char) (l : List Char) (h : sep ∉ l) :
    splitOnChar sep l = [l] := by
  induction l with
  | nil => rfl
  | cons c rest ih =>
    have hc : ¬(c = sep) := by
      intro he
      exact h (he ▸ List.mem_cons_self c rest)
    have hrest : sep ∉ rest := fun hm => h (List.mem_cons_of_mem c hm)
    rw [splitOnChar]
    simp only [hc, if_false]
    rw [ih hrest]

theorem splitOnChar_append (sep : Char) (a b : List Char) (ha : sep ∉ a) :
    splitOnChar sep (a ++ sep :: b) = a :: splitOnChar sep b := by
  induction a with
  | nil => simp [splitOnChar]
  | cons c rest ih =>
    have hc : ¬(c = sep) := by
      intro he
      exact ha (he ▸ List.mem_cons_self c rest)
    have hrest : sep ∉ rest := fun hm => ha (List.mem_cons_of_mem c hm)
    rw [List.cons_append, splitOnChar]
    simp only [hc, if_false]
    rw [ih hrest]

/-- The numeric value of a decimal digit character. -/
def digitVal (c : Char) : Nat := c.toNat - 48

/-- The value of a digit string, most significant digit first. -/
def charsToNat (l : List Char) : Nat :=
  l.foldl (fun acc c => acc * 10 + digitVal c) 0

def int64Max : Int := 9223372036854775807

def int64Min : Int := -9223372036854775808

/-- `strconv.ParseInt(s, 10, 64)`: optional sign, at least one decimal
digit, nothing else, 64-bit range. -/
def parseInt64 (s : List Char) : Option Int :=
  match s with
  | [] => none
  | c :: rest =>
    let neg : Bool := c = '-'
    let digits := if c = '-' ∨ c = '+' then rest else c :: rest
    if digits = [] then none
    else if digits.all Char.isDigit then
      let v : Int :=
        if neg then -(charsToNat digits : Int) else (charsToNat digits : Int)
      if v < int64Min ∨ int64Max < v then none else some v
    else none

structure ContentRange where
  Start : Int
  End : Int
  Total : Int

/-- `contentrange.Parse` (RFC 7233 `Content-Range` header). -/
def parseContentRange (s : List Char) : Except String ContentRange :=
  if s = [] then .error "content-range header is empty"
  else if ¬ (("bytes ".data).isPrefixOf s) then
    .error "invalid content-range header"
  else
    let s2 := s.drop 6
    let parts := splitOnChar '/' s2
    if parts.length ≠ 2 then .error "invalid content-range format"
    else
      let rangePart := parts.headD []
      let totalStr := (parts.drop 1).headD []
      let startEnd := splitOnChar '-' rangePart
      if startEnd.length ≠ 2 then .error "invalid range format"
      else
        match parseInt64 (startEnd.headD []) with
        | none => .error "invalid start value"
        | some start =>
          match parseInt64 ((startEnd.drop 1).headD []) with
          | none => .error "invalid end value"
          | some endv =>
            match
              if totalStr = ['*'] then some (-1 : Int)
              else parseInt64 totalStr with
            | none => .error "invalid total size"
            | some total =>
              if start > endv then
                .error "start cannot be greater than end"
              else
                .ok ⟨start, endv, total⟩

/-- A decimal digit character. -/
def digitChar (d : Nat) : Char := Char.ofNat (48 + d)

/-- The decimal digits of `n`, least significant first. -/
def natToCharsRev (n : Nat) : List Char :=
  if n = 0 then [] else digitChar (n % 10) :: natToCharsRev (n / 10)
decreasing_by
  exact Nat.div_lt_self (Nat.pos_of_ne_zero (by assumption)) (by norm_num)

/-- `fmt` decimal formatting of a natural number. -/
def natToChars (n : Nat) : List Char :=
  if n = 0 then ['0'] else (natToCharsRev n).reverse

/-- `fmt` `%d` formatting of an `int64`. -/
def intToChars (n : Int) : List Char :=
  if n < 0 then '-' :: natToChars (-n).toNat else natToChars n.toNat

/-- The header string `Client.uploadChunk` sets:
`fmt.Sprintf("bytes %d-%d/%d", start, end, size)`. -/
def clientContentRangeHeader (start endv total : Int) : List Char :=
  "bytes ".data ++
    (intToChars start ++ ('-' :: (intToChars endv ++
      ('/' :: intToChars total))))

theorem digitChar_spec (d : Nat) (hd : d < 10) :
    (digitChar d).isDigit = true ∧ digitVal (digitChar d) = d := by
  interval_cases d <;> exact ⟨by decide, by decide⟩

theorem isDigit_excludes (c : Char) (h : c.isDigit = true) :
    c ≠ '-' ∧ c ≠ '+' ∧ c ≠ '/' ∧ c ≠ '*' := by
  refine ⟨?_, ?_, ?_, ?_⟩ <;>
    · intro he
      subst he
      exact absurd h (by decide)

theorem natToCharsRev_digits (n : Nat) :
    ∀ c ∈ natToCharsRev n, c.isDigit = true := by
  induction n using Nat.strong_induction_on with
  | _ n ih =>
    rw [natToCharsRev]
    by_cases h0 : n = 0
    · simp [h0]
    · simp only [h0, if_false]
      intro c hc
      rcases List.mem_cons.mp hc with hc1 | hc2
      · subst hc1
        exact (digitChar_spec _ (Nat.mod_lt _ (by norm_num))).1
      · exact ih (n / 10)
          (Nat.div_lt_self (Nat.pos_of_ne_zero h0) (by norm_num)) c hc2

theorem charsToNat_concat (xs : List Char) (c : Char) :
    charsToNat (xs ++ [c]) = charsToNat xs * 10 + digitVal c := by
  simp [charsToNat, List.foldl_append]

theorem natToCharsRev_val (n : Nat) :
    charsToNat (natToCharsRev n).reverse = n := by
  induction n using Nat.strong_induction_on with
  | _ n ih =>
    rw [natToCharsRev]
    by_cases h0 : n = 0
    · simp [h0, charsToNat]
    · simp only [h0, if_false, List.reverse_cons]
      rw [charsToNat_concat,
        ih (n / 10) (Nat.div_lt_self (Nat.pos_of_ne_zero h0) (by norm_num)),
        (digitChar_spec (n % 10) (Nat.mod_lt _ (by norm_num))).2]
      omega

theorem natToChars_spec (n : Nat) :
    natToChars n ≠ [] ∧ (∀ c ∈ natToChars n, c.isDigit = true) ∧
      charsToNat (natToChars n) = n := by
  by_cases h0 : n = 0
  · subst h0
    exact ⟨by decide, by decide, by decide⟩
  · unfold natToChars
    simp only [h0, if_false]
    refine ⟨?_, ?_, natToCharsRev_val n⟩
    · rw [natToCharsRev]
      simp [h0]
    · intro c hc
      exact natToCharsRev_digits n c (List.mem_reverse.mp hc)

theorem parseInt64_natToChars (n : Nat) (h : (n : Int) ≤ int64Max) :
    parseInt64 (natToChars n) = some (n : Int) := by
  obtain ⟨hne, hdig, hval⟩ := natToChars_spec n
  obtain ⟨c, rest, hcons⟩ := List.exists_cons_of_ne_nil hne
  have hcdig : c.isDigit = true := hdig c (hcons ▸ List.mem_cons_self c rest)
  obtain ⟨hm, hp, _, _⟩ := isDigit_excludes c hcdig
  rw [hcons]
  have hcond : ¬(c = '-' ∨ c = '+') := by
    rintro (h1 | h1)
    · exact hm h1
    · exact hp h1
  have hall : (c :: rest).all Char.isDigit = true := by
    rw [List.all_eq_true]
    intro x hx
    exact hdig x (hcons ▸ hx)
  have hval2 : charsToNat (c :: rest) = n := hcons ▸ hval
  have hbound : ¬((n : Int) < int64Min ∨ int64Max < (n : Int)) := by
    simp only [int64Min, int64Max] at h ⊢
    omega
  simp only [parseInt64]
  rw [if_neg hcond]
  rw [if_neg (show ¬(c :: rest = []) by simp)]
  rw [if_pos hall]
  rw [if_neg (show ¬(decide (c = '-') = true) by simp [hm])]
  rw [hval2]
  rw [if_neg hbound]

theorem digits_no_slash (l : List Char) (h : ∀ c ∈ l, c.isDigit = true) :
    '/' ∉ l :=
  fun hm => (isDigit_excludes _ (h _ hm)).2.2.1 rfl

theorem digits_no_dash (l : List Char) (h : ∀ c ∈ l, c.isDigit = true) :
    '-' ∉ l :=
  fun hm => (isDigit_excludes _ (h _ hm)).1 rfl

theorem intToChars_nonneg (n : Int) (h : 0 ≤ n) :
    intToChars n = natToChars n.toNat := by
  unfold intToChars
  rw [if_neg (by omega)]

theorem intToChars_digits (n : Int) (h : 0 ≤ n) :
    ∀ c ∈ intToChars n, c.isDigit = true := by
  rw [intToChars_nonneg n h]
  exact (natToChars_spec _).2.1

theorem parseInt64_intToChars (n : Int) (h0 : 0 ≤ n) (hM : n ≤ int64Max) :
    parseInt64 (intToChars n) = some n := by
  rw [intToChars_nonneg n h0,
    parseInt64_natToChars n.toNat (by rw [Int.toNat_of_nonneg h0]; exact hM),
    Int.toNat_of_nonneg h0]

/-- Parsing the exact header shape the client emits, for an arbitrary
total field. -/
theorem parseContentRange_emitted (start endv : Int) (totalStr : List Char)
    (hs0 : 0 ≤ start) (he0 : 0 ≤ endv) (hsM : start ≤ int64Max)
    (heM : endv ≤ int64Max) (hslash : '/' ∉ totalStr) :
    parseContentRange ("bytes ".data ++
        (intToChars start ++ ('-' :: (intToChars endv ++
          ('/' :: totalStr))))) =
      (match (if totalStr = ['*'] then some (-1 : Int)
            else parseInt64 totalStr) with
        | none => Except.error "invalid total size"
        | some total =>
          if start > endv then
            Except.error "start cannot be greater than end"
          else Except.ok ⟨start, endv, total⟩) := by
  have hAdig := intToChars_digits start hs0
  have hBdig := intToChars_digits endv he0
  have hAslash : '/' ∉ intToChars start := digits_no_slash _ hAdig
  have hBslash : '/' ∉ intToChars endv := digits_no_slash _ hBdig
  have hAdash : '-' ∉ intToChars start := digits_no_dash _ hAdig
  have hBdash : '-' ∉ intToChars endv := digits_no_dash _ hBdig
  have hne1 : ("bytes ".data ++
      (intToChars start ++ ('-' :: (intToChars endv ++
        ('/' :: totalStr))))) ≠ [] := by simp
  have hpref : (("bytes ".data).isPrefixOf ("bytes ".data ++
      (intToChars start ++ ('-' :: (intToChars endv ++
        ('/' :: totalStr)))))) = true := by
    rw [List.isPrefixOf_iff_prefix]
    exact List.prefix_append _ _
  have hdrop : List.drop 6 ("bytes ".data ++
      (intToChars start ++ ('-' :: (intToChars endv ++
        ('/' :: totalStr))))) =
      intToChars start ++ ('-' :: (intToChars endv ++ ('/' :: totalStr))) := by
    rw [show (6 : Nat) = ("bytes ".data).length from rfl, List.drop_left]
  have hsplit1 : splitOnChar '/' (intToChars start ++
      ('-' :: (intToChars endv ++ ('/' :: totalStr)))) =
      [intToChars start ++ ('-' :: intToChars endv), totalStr] := by
    rw [show intToChars start ++ ('-' :: (intToChars endv ++
        ('/' :: totalStr))) =
        (intToChars start ++ ('-' :: intToChars endv)) ++ ('/' :: totalStr)
      from by simp]
    rw [splitOnChar_append '/' _ _ (by
      intro hm
      rcases List.mem_append.mp hm with hm1 | hm2
      · exact hAslash hm1
      · rcases List.mem_cons.mp hm2 with hm3 | hm4
        · exact absurd hm3 (by decide)
        · exact hBslash hm4)]
    rw [splitOnChar_no_sep '/' totalStr hslash]
  have hsplit2 : splitOnChar '-' (intToChars start ++
      ('-' :: intToChars endv)) = [intToChars start, intToChars endv] := by
    rw [splitOnChar_append '-' _ _ hAdash,
      splitOnChar_no_sep '-' _ hBdash]
  have hPA : parseInt64 (intToChars start) = some start :=
    parseInt64_intToChars start hs0 hsM
  have hPB : parseInt64 (intToChars endv) = some endv :=
    parseInt64_intToChars endv he0 heM
  unfold parseContentRange
  simp only [hne1, hpref, hdrop, hsplit1, hsplit2, hPA, hPB,
    List.headD_cons, List.drop_succ_cons, List.drop_zero, List.length_cons,
    List.length_nil, List.length_singleton, ne_eq, not_true, not_false_iff,
    ite_false, ite_true, if_neg, if_pos, not_true_eq_false,
    not_false_eq_true, reduceCtorEq]

/-- C10: the `Content-Range` header the client emits round-trips through
`contentrange.Parse` to exactly its start, end and total; every
successful parse has `Start ≤ End` (the client's own header with an
inverted range is rejected); and a `*` total parses to `Total = -1`. -/
theorem claim_C10_content_range_roundtrip :
    (∀ start endv total : Int, 0 ≤ start → start ≤ endv → 0 ≤ total →
      endv ≤ int64Max → total ≤ int64Max →
      parseContentRange (clientContentRangeHeader start endv total) =
        .ok ⟨start, endv, total⟩) ∧
    (∀ s cr, parseContentRange s = .ok cr → cr.Start ≤ cr.End) ∧
    (∀ start endv : Int, 0 ≤ start → start ≤ endv → endv ≤ int64Max →
      parseContentRange ("bytes ".data ++
        (intToChars start ++ ('-' :: (intToChars endv ++
          ('/' :: ['*']))))) = .ok ⟨start, endv, -1⟩) ∧
    (∀ start endv total : Int, 0 ≤ endv → endv < start → start ≤ int64Max →
      0 ≤ total → total ≤ int64Max →
      parseContentRange (clientContentRangeHeader start endv total) =
        .error "start cannot be greater than end") := by
  have hstar : ∀ (total : Int), 0 ≤ total → total ≤ int64Max →
      (if intToChars total = ['*'] then some (-1 : Int)
        else parseInt64 (intToChars total)) = some total := by
    intro total h0 hM
    rw [if_neg (by
      intro he
      have hmem : '*' ∈ intToChars total := by
        rw [he]
        exact List.mem_cons_self _ _
      exact (isDigit_excludes _ (intToChars_digits total h0 _ hmem)).2.2.2
        rfl)]
    exact parseInt64_intToChars total h0 hM
  refine ⟨?_, ?_, ?_, ?_⟩
  · intro start endv total hs0 hse ht0 heM htM
    rw [clientContentRangeHeader,
      parseContentRange_emitted start endv (intToChars total) hs0
        (le_trans hs0 hse) (le_trans hse heM) heM
        (digits_no_slash _ (intToChars_digits total ht0))]
    rw [hstar total ht0 htM]
    simp only [if_neg (not_lt.mpr hse)]
  · intro s cr h
    unfold parseContentRange at h
    simp only [ne_eq] at h
    repeat' split at h
    all_goals try cases h
    all_goals dsimp only
    all_goals omega
  · intro start endv hs0 hse heM
    rw [parseContentRange_emitted start endv ['*'] hs0
      (le_trans hs0 hse) (le_trans hse heM) heM (by decide)]
    rw [if_pos rfl]
    simp only [if_neg (not_lt.mpr hse)]
  · intro start endv total he0 hlt hsM ht0 htM
    rw [clientContentRangeHeader,
      parseContentRange_emitted start endv (intToChars total)
        (le_trans he0 (le_of_lt hlt)) he0 hsM (le_trans (le_of_lt hlt) hsM)
        (digits_no_slash _ (intToChars_digits total ht0))]
    rw [hstar total ht0 htM]
    simp only [if_pos hlt]

/-- Witness for C10 at `start = 0`, `end = 999`, `total = 100000000` (and
an inverted `5000-4000` range). -/
theorem claim_C10_content_range_roundtrip_witness :
    parseContentRange (clientContentRangeHeader 0 999 100000000) =
      .ok ⟨0, 999, 100000000⟩ ∧
    parseContentRange ("bytes ".data ++
      (intToChars 0 ++ ('-' :: (intToChars 999 ++
        ('/' :: ['*']))))) = .ok ⟨0, 999, -1⟩ ∧
    parseContentRange (clientContentRangeHeader 5000 4000 9999) =
      .error "start cannot be greater than end" :=
  ⟨claim_C10_content_range_roundtrip.1 0 999 100000000 (by norm_num)
      (by norm_num) (by norm_num) (by norm_num [int64Max])
      (by norm_num [int64Max]),
    claim_C10_content_range_roundtrip.2.2.1 0 999 (by norm_num)
      (by norm_num) (by norm_num [int64Max]),
    claim_C10_content_range_roundtrip.2.2.2 5000 4000 9999 (by norm_num)
      (by norm_num) (by norm_num [int64Max]) (by norm_num)
      (by norm_num [int64Max])⟩

/-! ## Single-file download (`internal/download/server.go`)

`handleDownload` first calls `s.fsys.Stat(path)` and maps **any** stat
error — including not-exist — to a 500 "Error getting file info"; only
when the stat succeeded does it open the file, and only that open's
`ErrNotExist` maps to the 404 "File not found" branch.  The backing store
is modelled as a map from paths to files; a missing path fails the stat.
Since nothing changes the store between the stat and the open, the 404
branch cannot fire in this sequential model — which is precisely the
divergence claim C8 runs into. -/

inductive DlFile where
  | dir
  | regular (content : List Nat) (modTime : Int)

inductive DlResponse where
  /-- 500, "Error getting file info" (any `Stat` error) -/
  | statError
  /-- 404, "File not found" (`OpenFile` failed with `ErrNotExist`) -/
  | notFound
  /-- `http.ServeContent` — byte-range capable — with the
  `Content-Disposition` header set beforehand -/
  | serveContent (name : String) (modTime : Int) (content : List Nat)
      (contentDisposition : String)
  /-- dispatched to `handleDownloadDirectory` -/
  | directory (path : String)
deriving DecidableEq

def handleDownload (ext : Externals) (fsys : String → Option DlFile)
    (path : String) : DlResponse :=
  match fsys path with
  | none => .statError
  | some .dir => .directory path
  | some (.regular content modTime) =>
    -- OpenFile(path, FlagReadOnly): in the map model an open fails
    -- exactly when the path is absent, which the successful stat above
    -- already excludes (the source's non-ErrNotExist open failure, a 500,
    -- is likewise unreachable here).
    match fsys path with
    | none => .notFound
    | some _ =>
      .serveContent (ext.basePath path) modTime content
        ("attachment; filename=" ++ ext.basePath path)

/-- C8, behaviour at the failing input: with no file in the backing
store, the handler answers 500 (`Stat` error), not the claimed 404; in
fact no input at all produces the 404 branch in the sequential model,
while an existing regular file is served range-capably with the
attachment disposition. -/
theorem claim_C8_notfound_shadowed :
    handleDownload extW (fun _ => none) "missing.bin" = .statError ∧
    handleDownload extW (fun _ => none) "missing.bin" ≠ .notFound ∧
    (∀ (fsys : String → Option DlFile) (path : String),
      handleDownload extW fsys path ≠ .notFound) ∧
    handleDownload extW
        (fun p => if p = "a/b.bin" then some (.regular [7, 8] 5) else none)
        "a/b.bin" =
      .serveContent "a/b.bin" 5 [7, 8] "attachment; filename=a/b.bin" := by
  refine ⟨rfl, by decide, ?_, by rfl⟩
  intro fsys path h
  unfold handleDownload at h
  split at h
  · cases h
  · cases h
  · split at h
    · simp_all
    · cases h

/-! ## Byte-range lock (`ChunkServer.processChunk`, claim C6)

`processChunk` wraps its offset write in

```go
lock, _ := s.rangeLocks.LoadOrStore(uploadID, rangelock.New())
id, err := lock.(*rangelock.RangeLock).Lock(ctx, rng.Start, rng.End)
...
defer lock.(*rangelock.RangeLock).Unlock(id)
_, err = io.Copy(io.NewOffsetWriter(f, rng.Start), part)
```

so one lock instance guards each `uploadID`'s staging file.  The
`rangelock` library itself (`github.com/bucket-sailor/rangelock`) is an
external module, not part of this repository's sources. -/

/-- Modelled from the spec: the `rangelock` library's state
(`rangelock.New` / `Lock` / `Unlock` are not under `src/`).  Per the
spec, a range lock is "a set of currently-held, non-overlapping
`[start,end]` integer intervals keyed by `uploadID`, each tagged with a
lock-instance identifier used for release"; "a new lock request blocks
(does not busy-spin) until no held interval intersects the requested
range"; `release(lockHandle)` "frees it and unblocks any waiter whose
interval is now free".  Blocking is modelled by guarding the acquire
transition: a waiter whose range overlaps a held interval has no enabled
acquire step until a release makes its range free. -/
structure RangeLockState where
  /-- currently-held intervals `(lockID, start, end)` -/
  held : List (Nat × Nat × Nat)
  /-- next fresh lock-instance identifier -/
  nextID : Nat

/-- Two closed intervals `[s1,e1]`, `[s2,e2]` intersect. -/
def intervalsOverlap (s1 e1 s2 e2 : Nat) : Prop := s1 ≤ e2 ∧ s2 ≤ e1

/-- Modelled from the spec: the acquire guard — no held interval
intersects the requested range. -/
def canAcquire (st : RangeLockState) (s e : Nat) : Prop :=
  ∀ iv ∈ st.held, ¬ intervalsOverlap s e iv.2.1 iv.2.2

/-- Modelled from the spec: `acquire(start, end) -> lockHandle`. -/
def rangeAcquire (st : RangeLockState) (s e : Nat) :
    RangeLockState × Nat :=
  ({ held := (st.nextID, s, e) :: st.held, nextID := st.nextID + 1 },
    st.nextID)

/-- Modelled from the spec: `release(lockHandle)`. -/
def rangeRelease (st : RangeLockState) (id : Nat) : RangeLockState :=
  { st with held := st.held.filter (fun iv => iv.1 ≠ id) }

/-- One transition of a per-`uploadID` range lock: an acquire (enabled
only when the range is free) or a release. -/
inductive LockStep : RangeLockState → RangeLockState → Prop where
  | acquire (st : RangeLockState) (s e : Nat) (h : canAcquire st s e) :
      LockStep st (rangeAcquire st s e).1
  | release (st : RangeLockState) (id : Nat) :
      LockStep st (rangeRelease st id)

/-- States reachable from the fresh lock `rangelock.New()` creates. -/
inductive LockReachable : RangeLockState → Prop where
  | init : LockReachable ⟨[], 0⟩
  | step (st st2 : RangeLockState) (h : LockReachable st)
      (hs : LockStep st st2) : LockReachable st2

/-- No two held intervals intersect. -/
def NoOverlappingHeld (st : RangeLockState) : Prop :=
  st.held.Pairwise
    (fun a b => ¬ intervalsOverlap a.2.1 a.2.2 b.2.1 b.2.2)

theorem lockStep_preserves (st st2 : RangeLockState)
    (hs : LockStep st st2) (hinv : NoOverlappingHeld st) :
    NoOverlappingHeld st2 := by
  cases hs with
  | acquire s e h =>
    unfold NoOverlappingHeld rangeAcquire at *
    refine List.Pairwise.cons ?_ hinv
    intro iv hiv
    exact h iv hiv
  | release id =>
    unfold NoOverlappingHeld rangeRelease at *
    exact hinv.filter _

/-- The offset write `io.Copy(io.NewOffsetWriter(f, rng.Start), part)`:
put `data` at offset `start`, zero-padding a shorter file first and
keeping whatever lies beyond the written range. -/
def writeRange (content : List Nat) (start : Nat) (data : List Nat) :
    List Nat :=
  (content.take start ++ List.replicate (start - content.length) 0) ++
    data ++ content.drop (start + data.length)

theorem writeRange_idem (c : List Nat) (s : Nat) (d : List Nat) :
    writeRange (writeRange c s d) s d = writeRange c s d := by
  have hP : (c.take s ++ List.replicate (s - c.length) 0).length = s := by
    simp only [List.length_append, List.length_take, List.length_replicate]
    omega
  have hW : writeRange c s d =
      (c.take s ++ List.replicate (s - c.length) 0) ++
        (d ++ c.drop (s + d.length)) := by
    unfold writeRange
    rw [List.append_assoc]
  rw [hW]
  unfold writeRange
  rw [List.take_left' hP]
  have hlen : s - ((c.take s ++ List.replicate (s - c.length) 0) ++
      (d ++ c.drop (s + d.length))).length = 0 := by
    simp only [List.length_append, hP]
    omega
  rw [hlen]
  simp only [List.replicate_zero, List.append_nil]
  rw [show (c.take s ++ List.replicate (s - c.length) 0) ++
      (d ++ c.drop (s + d.length)) =
        ((c.take s ++ List.replicate (s - c.length) 0) ++ d) ++
          c.drop (s + d.length)
    from (List.append_assoc _ _ _).symm]
  rw [List.drop_left' (show ((c.take s ++ List.replicate (s - c.length) 0)
    ++ d).length = s + d.length by rw [List.length_append, hP])]

/-- C6 (spec-modelled lock): in every reachable lock state the held
intervals are pairwise non-intersecting, so two overlapping chunk writes
for the same `uploadID` are never in their writing section at the same
time; an acquire overlapping a held interval is not enabled (the second
writer blocks) and becomes enabled once the holder releases (when no
other holder overlaps); non-overlapping acquires are enabled
concurrently; and re-writing the same range with the same data leaves the
staging bytes unchanged, so a retried chunk is idempotent. -/
theorem claim_C6_range_lock (st : RangeLockState)
    (hreach : LockReachable st) :
    NoOverlappingHeld st ∧
    (∀ id s1 e1 s2 e2, (id, s1, e1) ∈ st.held →
      intervalsOverlap s2 e2 s1 e1 → ¬ canAcquire st s2 e2) ∧
    (∀ id s2 e2,
      (∀ iv ∈ st.held, intervalsOverlap s2 e2 iv.2.1 iv.2.2 → iv.1 = id) →
      canAcquire (rangeRelease st id) s2 e2) ∧
    (∀ s1 e1 s2 e2, ¬ intervalsOverlap s2 e2 s1 e1 →
      canAcquire st s2 e2 →
      canAcquire (rangeAcquire st s1 e1).1 s2 e2) ∧
    (∀ c s d, writeRange (writeRange c s d) s d = writeRange c s d) := by
  have hinv : NoOverlappingHeld st := by
    induction hreach with
    | init => exact List.Pairwise.nil
    | step st st2 h hs ih => exact lockStep_preserves st st2 hs ih
  refine ⟨hinv, ?_, ?_, ?_, fun c s d => writeRange_idem c s d⟩
  · intro id s1 e1 s2 e2 hmem hov hacq
    exact hacq (id, s1, e1) hmem hov
  · intro id s2 e2 hall iv hiv hov
    have hin : iv ∈ st.held := List.mem_of_mem_filter hiv
    have hid := hall iv hin hov
    have hkeep := List.of_mem_filter hiv
    simp [hid] at hkeep
  · intro s1 e1 s2 e2 hnov hacq iv hiv hov
    unfold rangeAcquire at hiv
    rcases List.mem_cons.mp hiv with h1 | h2
    · subst h1
      exact hnov hov
    · exact hacq iv h2 hov

/-- A lock state holding one interval `[0, 99]` under lock id 0. -/
def lockStW : RangeLockState := ⟨[(0, 0, 99)], 1⟩

theorem lockStW_reachable : LockReachable lockStW := by
  have hca : canAcquire ⟨[], 0⟩ 0 99 := by
    intro iv hiv
    exact absurd hiv (List.not_mem_nil iv)
  have h1 : LockStep ⟨[], 0⟩ lockStW := by
    have h2 := LockStep.acquire ⟨[], 0⟩ 0 99 hca
    exact h2
  exact LockReachable.step _ _ LockReachable.init h1

/-- Witness for C6 on the one-holder state `lockStW`. -/
theorem claim_C6_range_lock_witness :
    LockReachable lockStW ∧
    (NoOverlappingHeld lockStW ∧
    (∀ id s1 e1 s2 e2, (id, s1, e1) ∈ lockStW.held →
      intervalsOverlap s2 e2 s1 e1 → ¬ canAcquire lockStW s2 e2) ∧
    (∀ id s2 e2,
      (∀ iv ∈ lockStW.held,
        intervalsOverlap s2 e2 iv.2.1 iv.2.2 → iv.1 = id) →
      canAcquire (rangeRelease lockStW id) s2 e2) ∧
    (∀ s1 e1 s2 e2, ¬ intervalsOverlap s2 e2 s1 e1 →
      canAcquire lockStW s2 e2 →
      canAcquire (rangeAcquire lockStW s1 e1).1 s2 e2) ∧
    (∀ c s d, writeRange (writeRange c s d) s d = writeRange c s d)) :=
  ⟨lockStW_reachable, claim_C6_range_lock lockStW lockStW_reachable⟩

end Bucketeer
